import Mathlib

/-!
Shallow embedding of `glue_common_utils/salesforce_connector.py`.

The remote collaborator (`self.sf`, a Salesforce session) is modelled as an
environment supplied explicitly to each operation:
* `query_all` / `query` calls that are assumed to succeed are a given `SfPage`
  (or a total function from the query string to an `SfPage`);
* successive `query_more` calls are a list of `Except Unit SfPage` responses,
  `.error` standing for a raised exception; running out of listed responses is
  treated the same as a raised exception.

Records are association lists from field name to value (Python dicts with
string values; claims only inspect keys).  Machine strings are ASCII here, so
`Char.toUpper` agrees with Python's `str.upper` and indices are code points,
matching Python slicing.  Python callbacks are pure functions returning
`Except String Unit`; the connector ignores the outcome (it catches and logs
every callback exception), which the embedding mirrors by recording the
outcome in a call log that the control flow never inspects.

Nat subtraction/division note: `query_in_batches` with `batch_size = 0` would
raise `ZeroDivisionError` in Python; in the embedding Nat division by zero
yields zero batches.  Every claim about batching assumes `batch_size > 0`.
-/

namespace GlueUtils

/-- A record: association list from field name to field value. -/
abbrev Record := List (String × String)

/-- Embeds `record.pop('attributes', None)` (line 73/97/213): the record with
the `attributes` key removed. -/
def popAttributes (r : Record) : Record :=
  r.filter (fun kv => kv.1 != "attributes")

/-- Whether a record still carries the remote system's `attributes` key. -/
def hasAttributesKey (r : Record) : Bool :=
  r.any (fun kv => kv.1 == "attributes")

/-- Every record of the list lacks the `attributes` key. -/
def cleanRecs (l : List Record) : Bool :=
  l.all (fun r => !hasAttributesKey r)

/-- A result page of the remote API, as the Python dict returned by
`sf.query` / `sf.query_all` / `sf.query_more`.  Fields read with `.get` and a
default, or with `[...]` (KeyError when absent), are `Option`s. -/
structure SfPage where
  records : List Record
  totalSize : Option Nat
  done : Option Bool
  nextRecordsUrl : Option String

/-- Uppercase a string character-wise (Python `str.upper` on ASCII input). -/
def pyUpper (s : String) : String :=
  String.mk (s.toList.map Char.toUpper)

/-- Decide whether `needle` begins `hay`. -/
def isPrefList : List Char → List Char → Bool
  | [], _ => true
  | _ :: _, [] => false
  | a :: as, b :: bs => a == b && isPrefList as bs

/-- Index of the first occurrence of `needle` in `hay`
(Python `hay.find(needle)`, with `none` for `-1`). -/
def findSub (needle : List Char) : List Char → Option Nat
  | [] => if needle.isEmpty then some 0 else none
  | h :: t =>
      if isPrefList needle (h :: t) then some 0
      else (findSub needle t).map (· + 1)

/-- Python `hay.find(needle)` on strings, as a code-point index. -/
def pyFind (hay needle : String) : Option Nat :=
  findSub needle.toList hay.toList

/-- Python `needle in hay`. -/
def pyContains (hay needle : String) : Bool :=
  (pyFind hay needle).isSome

/-- Python `s[:n]`. -/
def pyTake (s : String) (n : Nat) : String :=
  String.mk (s.toList.take n)

/-- Python `s[n:]`. -/
def pyDrop (s : String) (n : Nat) : String :=
  String.mk (s.toList.drop n)

/-- One pass of the clause-removal loop of `query_count` (lines 148-151):
truncate `cq` at the first case-insensitive occurrence of `clause`, if any. -/
def stripClause (cq : String) (clause : String) : String :=
  match pyFind (pyUpper cq) clause with
  | some i => pyTake cq i
  | none => cq

/-- The keyword list of `query_count` line 148. -/
def countClauses : List String :=
  ["ORDER BY", "LIMIT", "OFFSET", "GROUP BY", "HAVING"]

/-- The pure query rewrite of `query_count` (lines 142-151, 159): `none` is
the raised `ValueError("Invalid SOQL query format")`.  The inner `match` arm
returning `none` is unreachable: the guard has established that `FROM`
occurs. -/
def count_rewrite (soql : String) : Option String :=
  if pyContains (pyUpper soql) "SELECT" && pyContains (pyUpper soql) "FROM" then
    match pyFind (pyUpper soql) "FROM" with
    | some fromIndex =>
        some (countClauses.foldl stripClause ("SELECT COUNT() " ++ pyDrop soql fromIndex))
    | none => none
  else none

/-- `query_count` (lines 127-159): rewrite to a count query, execute it, and
return its `totalSize` (default 0).  `server` is the session's successful
`sf.query`. -/
def query_count (server : String → SfPage) (soql : String) : Option Nat :=
  (count_rewrite soql).map (fun cq => ((server cq).totalSize).getD 0)

/-- A batch callback: `callback(batch_records, batch_num, total)`, returning
`.error` when the Python callback raises. -/
def Callback := List Record → Nat → Nat → Except String Unit

/-- Result of a paginated extraction: the accumulated records and the log of
callback invocations (batch number passed, outcome returned).  The outcome is
recorded but never read, as the connector swallows callback exceptions. -/
structure PagResult where
  records : List Record
  cbCalls : List (Nat × Except String Unit)

/-- The guarded callback dispatch of `_query_with_pagination` (lines 104-108):
invoke the callback when present, catch and discard its outcome; the log entry
is the batch number passed and the outcome observed. -/
def cbInvoke (cb : Option Callback) (batch : List Record) (bn ts : Nat) :
    List (Nat × Except String Unit) :=
  match cb with
  | some f => [(bn, f batch bn ts)]
  | none => []

/-- The `while True` loop of `_query_with_pagination` (lines 91-123).
`page` is the current `result`, `batchNum` the value of `batch_num` before the
`batch_num += 1` at the top of the iteration, `conts` the remaining
`query_more` responses.  Exits: `done` truthy (line 114-115), missing
`nextRecordsUrl` (KeyError inside the `try`, line 119), failed or unavailable
`query_more` response (lines 120-122). -/
def pagLoop (cb : Option Callback) (totalSize : Nat) :
    SfPage → Nat → List (Except Unit SfPage) → PagResult
  | page, batchNum, conts =>
    let bn := batchNum + 1
    let batch := page.records.map popAttributes
    let calls := cbInvoke cb batch bn totalSize
    if page.done.getD true then ⟨batch, calls⟩
    else
      match page.nextRecordsUrl, conts with
      | none, _ => ⟨batch, calls⟩
      | some _, [] => ⟨batch, calls⟩
      | some _, Except.error _ :: _ => ⟨batch, calls⟩
      | some _, Except.ok next :: rest =>
          let r := pagLoop cb totalSize next bn rest
          ⟨batch ++ r.records, calls ++ r.cbCalls⟩

/-- `_query_with_pagination` (lines 79-125): first page from `sf.query`, then
the loop; `total_size` is the first page's `totalSize` (default 0). -/
def query_with_pagination (firstPage : SfPage) (conts : List (Except Unit SfPage))
    (cb : Option Callback) : PagResult :=
  pagLoop cb (firstPage.totalSize.getD 0) firstPage 0 conts

/-- `_query_all_data` (lines 59-77): strip `attributes` from each record of
the single `sf.query_all` result. -/
def query_all_data (result : SfPage) : List Record :=
  result.records.map popAttributes

/-- Environment for one `query_data` call: the page `sf.query_all` would
return, the page `sf.query` would return, and the `sf.query_more` responses. -/
structure SfEnv where
  allPage : SfPage
  firstPage : SfPage
  moreResponses : List (Except Unit SfPage)

/-- `query_data` (lines 29-57): full pull when `paginate` is false (the
callback is not passed to `_query_all_data`), cursor pagination otherwise. -/
def query_data (env : SfEnv) (paginate : Bool) (cb : Option Callback) : PagResult :=
  if !paginate then ⟨query_all_data env.allPage, []⟩
  else query_with_pagination env.firstPage env.moreResponses cb

/-- The batch-query rewrite of `query_in_batches` (lines 197-204): insert
`LIMIT .. OFFSET ..` immediately before an existing `ORDER BY` clause
(case-insensitive search), else append it. -/
def buildBatchQuery (soql : String) (batchSize offset : Nat) : String :=
  match pyFind (pyUpper soql) "ORDER BY" with
  | some i =>
      pyTake soql i ++ " LIMIT " ++ toString batchSize ++ " OFFSET " ++ toString offset
        ++ " " ++ pyDrop soql i
  | none => soql ++ " LIMIT " ++ toString batchSize ++ " OFFSET " ++ toString offset

/-- `total_batches = (total_records + batch_size - 1) // batch_size`
(line 188). -/
def totalBatchesOf (totalRecords batchSize : Nat) : Nat :=
  (totalRecords + batchSize - 1) / batchSize

/-- Result of `query_in_batches`: accumulated records, the offsets of the
batch queries actually issued, and the callback invocation log
(`(batch_num, total_batches)` passed, outcome returned). -/
structure BatchResult where
  records : List Record
  offsets : List Nat
  cbCalls : List ((Nat × Nat) × Except String Unit)

/-- The guarded callback dispatch of `query_in_batches` (lines 220-224):
invoke the callback when present, catch and discard its outcome; the log entry
is the `(batch_num, total_batches)` pair passed and the outcome observed. -/
def cbInvokeBatch (cb : Option Callback) (batch : List Record) (bn tb : Nat) :
    List ((Nat × Nat) × Except String Unit) :=
  match cb with
  | some f => [((bn, tb), f batch bn tb)]
  | none => []

/-- The `for batch_num in range(total_batches)` loop of `query_in_batches`
(lines 193-230).  `batchIdx` is `batch_num`, `remaining` the iterations the
`range` still allows; the final `if len(batch_records) < batch_size: break`
(lines 229-230) stops after the current batch's records, offset and callback
call have been recorded.  `server` is the session's successful
`sf.query_all`. -/
def batchLoop (server : String → SfPage) (soql : String) (batchSize totalBatches : Nat)
    (cb : Option Callback) : Nat → Nat → BatchResult
  | _, 0 => ⟨[], [], []⟩
  | batchIdx, remaining + 1 =>
    let offset := batchIdx * batchSize
    let page := server (buildBatchQuery soql batchSize offset)
    let batch := page.records.map popAttributes
    let calls := cbInvokeBatch cb batch (batchIdx + 1) totalBatches
    if batch.length < batchSize then ⟨batch, [offset], calls⟩
    else
      let rest := batchLoop server soql batchSize totalBatches cb (batchIdx + 1) remaining
      ⟨batch ++ rest.records, offset :: rest.offsets, calls ++ rest.cbCalls⟩

/-- `query_in_batches` (lines 165-233): count first (`none` when
`query_count` raises), short-circuit on zero, else run the batch loop. -/
def query_in_batches (server : String → SfPage) (soql : String) (batchSize : Nat)
    (cb : Option Callback) : Option BatchResult :=
  match query_count server soql with
  | none => none
  | some totalRecords =>
    if totalRecords = 0 then some ⟨[], [], []⟩
    else
      some (batchLoop server soql batchSize (totalBatchesOf totalRecords batchSize) cb 0
        (totalBatchesOf totalRecords batchSize))

/-- A page that drives the pagination loop onward: `done` present and false,
continuation token present (the spec's Page invariant for `done == false`). -/
def wantsMore (pg : SfPage) : Bool :=
  pg.done == some false && pg.nextRecordsUrl.isSome

/-- A well-formed page chain for a successful cursor-paginated run: every page
but the last drives the loop onward, the last is marked done. -/
def chainDone : SfPage → List SfPage → Bool
  | p, [] => p.done == some true
  | p, q :: rest => wantsMore p && chainDone q rest

/-- Every page of the list drives the loop onward. -/
def allWantMore (ps : List SfPage) : Bool :=
  ps.all wantsMore

/-- The stripped batch that offset batch number `k` (0-based) would fetch:
determined by the server function, since the issued query is determined by
`k * batchSize`. -/
def fetchedBatch (server : String → SfPage) (soql : String) (bs k : Nat) :
    List Record :=
  ((server (buildBatchQuery soql bs (k * bs))).records).map popAttributes

/-! ### Concrete demonstration environments (used by witnesses) -/

/-- A record as returned by the remote system, attributes key included. -/
def rawRecord1 : Record := [("attributes", "meta"), ("Id", "1")]

/-- A record without an attributes key. -/
def rawRecord2 : Record := [("Id", "2")]

/-- First page of a two-page cursor run: 2 records, not done, token present. -/
def pageA : SfPage := ⟨[rawRecord1, rawRecord2], some 3, some false, some "u1"⟩

/-- Last page of a two-page cursor run: 1 record, done. -/
def pageB : SfPage := ⟨[rawRecord1], some 3, some true, none⟩

/-- A page violating the Page invariant: not done but no continuation token. -/
def pageNoUrl : SfPage := ⟨[rawRecord2], some 3, some false, none⟩

/-- An environment for `query_data`: full pull returns `pageA`'s records, the
paginated run walks `pageA` then `pageB`. -/
def demoEnv : SfEnv := ⟨pageA, pageA, [Except.ok pageB]⟩

/-- A callback that raises on every invocation. -/
def demoCb : Callback := fun _ _ _ => Except.error "callback failed"

/-- A server for the spec's 5000-record, batch-size-2000 offset run: the count
query reports 5000; the batch at offset 4000 returns 1000 records, the two
earlier batches 2000 each. -/
def demoServer (q : String) : SfPage :=
  if pyContains q "OFFSET 4000" then ⟨List.replicate 1000 rawRecord2, some 5000, some true, none⟩
  else if pyContains q "COUNT()" then ⟨[], some 5000, some true, none⟩
  else ⟨List.replicate 2000 rawRecord2, some 5000, some true, none⟩

/-- A small offset-batching server: the count query reports 3, the batch at
offset 2 returns a single record, the first batch two records. -/
def smallServer (q : String) : SfPage :=
  if pyContains q "OFFSET 2" then ⟨[rawRecord2], some 3, some true, none⟩
  else if pyContains q "COUNT()" then ⟨[], some 3, some true, none⟩
  else ⟨[rawRecord1, rawRecord2], some 3, some true, none⟩

/-! ### Attribute stripping -/

lemma hasAttributesKey_popAttributes (r : Record) :
    hasAttributesKey (popAttributes r) = false := by
  simp only [hasAttributesKey, popAttributes, List.any_eq_false]
  intro kv hkv
  have := (List.mem_filter.mp hkv).2
  simpa [bne] using this

lemma cleanRecs_map_popAttributes (l : List Record) :
    cleanRecs (l.map popAttributes) = true := by
  simp only [cleanRecs, List.all_eq_true]
  intro r hr
  obtain ⟨s, _, rfl⟩ := List.mem_map.mp hr
  simp [hasAttributesKey_popAttributes]

lemma cleanRecs_append (a b : List Record) :
    cleanRecs (a ++ b) = (cleanRecs a && cleanRecs b) := by
  simp [cleanRecs]

/-! ### Unfolding lemmas for the pagination loop -/

lemma pagLoop_stop (cb : Option Callback) (ts : Nat) (page : SfPage) (n : Nat)
    (conts : List (Except Unit SfPage)) (h : page.done.getD true = true) :
    pagLoop cb ts page n conts
      = ⟨page.records.map popAttributes,
         cbInvoke cb (page.records.map popAttributes) (n + 1) ts⟩ := by
  rw [pagLoop.eq_def]
  simp [h]

lemma pagLoop_noUrl (cb : Option Callback) (ts : Nat) (page : SfPage) (n : Nat)
    (conts : List (Except Unit SfPage)) (h1 : page.done.getD true = false)
    (h2 : page.nextRecordsUrl = none) :
    pagLoop cb ts page n conts
      = ⟨page.records.map popAttributes,
         cbInvoke cb (page.records.map popAttributes) (n + 1) ts⟩ := by
  rw [pagLoop.eq_def]
  simp [h1, h2]

lemma pagLoop_contsNil (cb : Option Callback) (ts : Nat) (page : SfPage) (n : Nat)
    (u : String) (h1 : page.done.getD true = false)
    (h2 : page.nextRecordsUrl = some u) :
    pagLoop cb ts page n []
      = ⟨page.records.map popAttributes,
         cbInvoke cb (page.records.map popAttributes) (n + 1) ts⟩ := by
  rw [pagLoop.eq_def]
  simp [h1, h2]

lemma pagLoop_contsErr (cb : Option Callback) (ts : Nat) (page : SfPage) (n : Nat)
    (u : String) (e : Unit) (tail : List (Except Unit SfPage))
    (h1 : page.done.getD true = false) (h2 : page.nextRecordsUrl = some u) :
    pagLoop cb ts page n (Except.error e :: tail)
      = ⟨page.records.map popAttributes,
         cbInvoke cb (page.records.map popAttributes) (n + 1) ts⟩ := by
  rw [pagLoop.eq_def]
  simp [h1, h2]

lemma pagLoop_next (cb : Option Callback) (ts : Nat) (page : SfPage) (n : Nat)
    (u : String) (next : SfPage) (rest : List (Except Unit SfPage))
    (h1 : page.done.getD true = false) (h2 : page.nextRecordsUrl = some u) :
    pagLoop cb ts page n (Except.ok next :: rest)
      = ⟨page.records.map popAttributes ++ (pagLoop cb ts next (n + 1) rest).records,
         cbInvoke cb (page.records.map popAttributes) (n + 1) ts
           ++ (pagLoop cb ts next (n + 1) rest).cbCalls⟩ := by
  rw [pagLoop.eq_def]
  simp [h1, h2]

lemma pagLoop_records_clean (cb : Option Callback) (ts : Nat) :
    ∀ (conts : List (Except Unit SfPage)) (page : SfPage) (n : Nat),
      cleanRecs (pagLoop cb ts page n conts).records = true := by
  intro conts
  induction conts with
  | nil =>
      intro page n
      cases hd : page.done.getD true
      · cases hu : page.nextRecordsUrl with
        | none => rw [pagLoop_noUrl cb ts page n [] hd hu]
                  exact cleanRecs_map_popAttributes _
        | some u => rw [pagLoop_contsNil cb ts page n u hd hu]
                    exact cleanRecs_map_popAttributes _
      · rw [pagLoop_stop cb ts page n [] hd]
        exact cleanRecs_map_popAttributes _
  | cons c rest ih =>
      intro page n
      cases hd : page.done.getD true
      · cases hu : page.nextRecordsUrl with
        | none => rw [pagLoop_noUrl cb ts page n (c :: rest) hd hu]
                  exact cleanRecs_map_popAttributes _
        | some u =>
            match c with
            | Except.error e =>
                rw [pagLoop_contsErr cb ts page n u e rest hd hu]
                exact cleanRecs_map_popAttributes _
            | Except.ok next =>
                rw [pagLoop_next cb ts page n u next rest hd hu]
                simp only [cleanRecs_append, cleanRecs_map_popAttributes, ih]
                rfl
      · rw [pagLoop_stop cb ts page n (c :: rest) hd]
        exact cleanRecs_map_popAttributes _

lemma batchLoop_records_clean (server : String → SfPage) (soql : String)
    (bs tb : Nat) (cb : Option Callback) :
    ∀ (r k : Nat), cleanRecs (batchLoop server soql bs tb cb k r).records = true := by
  intro r
  induction r with
  | zero => intro k; simp [batchLoop, cleanRecs]
  | succ r ih =>
      intro k
      simp only [batchLoop]
      split
      · exact cleanRecs_map_popAttributes _
      · simp only [cleanRecs_append, cleanRecs_map_popAttributes, ih]
        rfl

/-! ### C1 -/

/-- C1: for every extraction strategy — full pull (`query_data` with
`paginate = false`), cursor pagination (`query_data` with `paginate = true`)
and offset batching (`query_in_batches`) — every record of the returned
sequence lacks the `attributes` key. -/
theorem extraction_strips_attributes_key :
    (∀ (env : SfEnv) (paginate : Bool) (cb : Option Callback),
        cleanRecs (query_data env paginate cb).records = true)
  ∧ ∀ (server : String → SfPage) (soql : String) (bs : Nat) (cb : Option Callback)
      (res : BatchResult), query_in_batches server soql bs cb = some res →
        cleanRecs res.records = true := by
  constructor
  · intro env paginate cb
    cases paginate with
    | false => exact cleanRecs_map_popAttributes _
    | true =>
        simp only [query_data, Bool.not_true, Bool.false_eq_true, if_false,
          query_with_pagination]
        exact pagLoop_records_clean cb _ _ _ _
  · intro server soql bs cb res h
    simp only [query_in_batches] at h
    cases hq : query_count server soql with
    | none => rw [hq] at h; exact absurd h (by simp)
    | some total =>
        rw [hq] at h
        dsimp only at h
        by_cases h0 : total = 0
        · rw [if_pos h0] at h
          obtain rfl := Option.some_inj.mp h
          simp [cleanRecs]
        · rw [if_neg h0] at h
          obtain rfl := Option.some_inj.mp h
          exact batchLoop_records_clean server soql bs _ cb _ _

/-- Witness for C1 at the demonstration environments. -/
theorem extraction_strips_attributes_key_witness :
    cleanRecs (query_data demoEnv true (some demoCb)).records = true
  ∧ cleanRecs (BatchResult.mk [[("Id", "1")], [("Id", "2")], [("Id", "2")]]
      [0, 2] []).records = true :=
  ⟨extraction_strips_attributes_key.1 demoEnv true (some demoCb),
   extraction_strips_attributes_key.2 smallServer "select id from Contact" 2 none
     ⟨[[("Id", "1")], [("Id", "2")], [("Id", "2")]], [0, 2], []⟩ rfl⟩

/-! ### C2 -/

lemma pagLoop_chain_records (cb : Option Callback) (ts : Nat) :
    ∀ (rest : List SfPage) (p : SfPage) (n : Nat),
      chainDone p rest = true →
      (pagLoop cb ts p n (rest.map Except.ok)).records
        = (p :: rest).flatMap (fun pg => pg.records.map popAttributes) := by
  intro rest
  induction rest with
  | nil =>
      intro p n h
      simp only [chainDone] at h
      have hd : p.done.getD true = true := by rw [eq_of_beq h]; rfl
      rw [List.map_nil, pagLoop_stop cb ts p n [] hd]
      simp
  | cons q rest ih =>
      intro p n h
      simp only [chainDone, wantsMore, Bool.and_eq_true] at h
      obtain ⟨⟨hdone, hurl⟩, hrest⟩ := h
      have hd : p.done.getD true = false := by rw [eq_of_beq hdone]; rfl
      obtain ⟨u, hu⟩ := Option.isSome_iff_exists.mp hurl
      rw [List.map_cons, pagLoop_next cb ts p n u q _ hd hu]
      simp only
      rw [ih q (n + 1) hrest]
      simp

lemma pagLoop_chain_cbCalls (f : Callback) (ts : Nat) :
    ∀ (rest : List SfPage) (p : SfPage) (n : Nat),
      chainDone p rest = true →
      (pagLoop (some f) ts p n (rest.map Except.ok)).cbCalls.map Prod.fst
        = List.range' (n + 1) (rest.length + 1) := by
  intro rest
  induction rest with
  | nil =>
      intro p n h
      simp only [chainDone] at h
      have hd : p.done.getD true = true := by rw [eq_of_beq h]; rfl
      rw [List.map_nil, pagLoop_stop (some f) ts p n [] hd]
      simp [cbInvoke, List.range']
  | cons q rest ih =>
      intro p n h
      simp only [chainDone, wantsMore, Bool.and_eq_true] at h
      obtain ⟨⟨hdone, hurl⟩, hrest⟩ := h
      have hd : p.done.getD true = false := by rw [eq_of_beq hdone]; rfl
      obtain ⟨u, hu⟩ := Option.isSome_iff_exists.mp hurl
      rw [List.map_cons, pagLoop_next (some f) ts p n u q _ hd hu]
      simp only [List.map_append]
      rw [ih q (n + 1) hrest]
      simp [cbInvoke, List.range'_succ]

/-- C2: a successful cursor-paginated run over pages 1..N (pages 1..N-1 not
done and carrying a token, page N done) returns as many records as the pages
hold in total, and a supplied callback sees batch numbers 1, 2, ..., N in
order. -/
theorem cursor_pagination_length_and_callback_order :
    ∀ (allPage p : SfPage) (rest : List SfPage) (cb : Option Callback) (f : Callback),
      chainDone p rest = true →
      (query_data ⟨allPage, p, rest.map Except.ok⟩ true cb).records.length
          = ((p :: rest).map (fun pg => pg.records.length)).sum
        ∧ (query_data ⟨allPage, p, rest.map Except.ok⟩ true (some f)).cbCalls.map Prod.fst
          = List.range' 1 (p :: rest).length := by
  intro allPage p rest cb f h
  constructor
  · show (pagLoop cb _ p 0 (rest.map Except.ok)).records.length = _
    rw [pagLoop_chain_records cb _ rest p 0 h]
    simp [Function.comp_def]
  · show (pagLoop (some f) _ p 0 (rest.map Except.ok)).cbCalls.map Prod.fst = _
    rw [pagLoop_chain_cbCalls f _ rest p 0 h]
    simp

/-- Witness for C2 at a concrete two-page chain. -/
theorem cursor_pagination_length_and_callback_order_witness :
    chainDone pageA [pageB] = true
  ∧ ((query_data ⟨pageA, pageA, [pageB].map Except.ok⟩ true (some demoCb)).records.length
        = ((pageA :: [pageB]).map (fun pg => pg.records.length)).sum
      ∧ (query_data ⟨pageA, pageA, [pageB].map Except.ok⟩ true (some demoCb)).cbCalls.map Prod.fst
        = List.range' 1 (pageA :: [pageB]).length) :=
  ⟨by decide,
   cursor_pagination_length_and_callback_order pageA pageA [pageB] (some demoCb) demoCb
     (by decide)⟩

/-! ### C4 -/

lemma pagLoop_records_cb_irrelevant (ts : Nat) :
    ∀ (conts : List (Except Unit SfPage)) (page : SfPage) (n : Nat)
      (cb cb' : Option Callback),
      (pagLoop cb ts page n conts).records = (pagLoop cb' ts page n conts).records := by
  intro conts
  induction conts with
  | nil =>
      intro page n cb cb'
      cases hd : page.done.getD true
      · cases hu : page.nextRecordsUrl with
        | none => rw [pagLoop_noUrl cb ts page n [] hd hu,
                      pagLoop_noUrl cb' ts page n [] hd hu]
        | some u => rw [pagLoop_contsNil cb ts page n u hd hu,
                        pagLoop_contsNil cb' ts page n u hd hu]
      · rw [pagLoop_stop cb ts page n [] hd, pagLoop_stop cb' ts page n [] hd]
  | cons c rest ih =>
      intro page n cb cb'
      cases hd : page.done.getD true
      · cases hu : page.nextRecordsUrl with
        | none => rw [pagLoop_noUrl cb ts page n (c :: rest) hd hu,
                      pagLoop_noUrl cb' ts page n (c :: rest) hd hu]
        | some u =>
            match c with
            | Except.error e =>
                rw [pagLoop_contsErr cb ts page n u e rest hd hu,
                    pagLoop_contsErr cb' ts page n u e rest hd hu]
            | Except.ok next =>
                rw [pagLoop_next cb ts page n u next rest hd hu,
                    pagLoop_next cb' ts page n u next rest hd hu]
                simp only
                rw [ih next (n + 1) cb cb']
      · rw [pagLoop_stop cb ts page n (c :: rest) hd,
            pagLoop_stop cb' ts page n (c :: rest) hd]

lemma batchLoop_records_cb_irrelevant (server : String → SfPage) (soql : String)
    (bs tb : Nat) :
    ∀ (r k : Nat) (cb cb' : Option Callback),
      (batchLoop server soql bs tb cb k r).records
        = (batchLoop server soql bs tb cb' k r).records := by
  intro r
  induction r with
  | zero => intro k cb cb'; rfl
  | succ r ih =>
      intro k cb cb'
      simp only [batchLoop]
      by_cases hlt :
          ((server (buildBatchQuery soql bs (k * bs))).records.map popAttributes).length < bs
      · rw [if_pos hlt, if_pos hlt]
      · rw [if_neg hlt, if_neg hlt]
        simp only
        rw [ih (k + 1) cb cb']

/-- C4: a batch callback that raises (on some or all invocations) is swallowed:
both cursor pagination and offset batching return exactly the records they
would return with no callback supplied. -/
theorem callback_failure_never_changes_records :
    (∀ (firstPage : SfPage) (conts : List (Except Unit SfPage)) (f : Callback),
        (query_with_pagination firstPage conts (some f)).records
          = (query_with_pagination firstPage conts none).records)
  ∧ ∀ (server : String → SfPage) (soql : String) (bs : Nat) (f : Callback),
      (query_in_batches server soql bs (some f)).map BatchResult.records
        = (query_in_batches server soql bs none).map BatchResult.records := by
  constructor
  · intro fp conts f
    exact pagLoop_records_cb_irrelevant _ conts fp 0 (some f) none
  · intro server soql bs f
    simp only [query_in_batches]
    cases query_count server soql with
    | none => rfl
    | some total =>
        dsimp only
        by_cases h0 : total = 0
        · rw [if_pos h0, if_pos h0]
        · rw [if_neg h0, if_neg h0]
          simp only [Option.map_some']
          exact congrArg some
            (batchLoop_records_cb_irrelevant server soql bs (totalBatchesOf total bs)
              (totalBatchesOf total bs) 0 (some f) none)

/-! ### C3 -/

lemma pagLoop_allMore_err (cb : Option Callback) (ts : Nat) :
    ∀ (rest : List SfPage) (p : SfPage) (n : Nat) (e : Unit)
      (tail : List (Except Unit SfPage)),
      allWantMore (p :: rest) = true →
      (pagLoop cb ts p n (rest.map Except.ok ++ Except.error e :: tail)).records
        = (p :: rest).flatMap (fun pg => pg.records.map popAttributes) := by
  intro rest
  induction rest with
  | nil =>
      intro p n e tail h
      rw [allWantMore, List.all_cons, List.all_nil, Bool.and_true, wantsMore,
        Bool.and_eq_true] at h
      obtain ⟨hdone, hurl⟩ := h
      have hd : p.done.getD true = false := by rw [eq_of_beq hdone]; rfl
      obtain ⟨u, hu⟩ := Option.isSome_iff_exists.mp hurl
      rw [List.map_nil, List.nil_append, pagLoop_contsErr cb ts p n u e tail hd hu]
      simp
  | cons q rest ih =>
      intro p n e tail h
      rw [allWantMore, List.all_cons, Bool.and_eq_true] at h
      obtain ⟨hp, hrest⟩ := h
      rw [wantsMore, Bool.and_eq_true] at hp
      obtain ⟨hdone, hurl⟩ := hp
      have hd : p.done.getD true = false := by rw [eq_of_beq hdone]; rfl
      obtain ⟨u, hu⟩ := Option.isSome_iff_exists.mp hurl
      rw [List.map_cons, List.cons_append, pagLoop_next cb ts p n u q _ hd hu]
      simp only
      rw [ih q (n + 1) e tail hrest]
      simp

/-- C3: when a continuation fetch fails after pages 1..k were consumed (each
of them not done and carrying a token), cursor pagination returns normally
with exactly the records of pages 1..k; the result does not depend on any
responses after the failed one, so the failed call is not retried. -/
theorem cursor_pagination_continuation_failure_truncates :
    ∀ (p : SfPage) (rest : List SfPage) (cb : Option Callback) (e : Unit)
      (tail : List (Except Unit SfPage)),
      allWantMore (p :: rest) = true →
      (query_with_pagination p (rest.map Except.ok ++ Except.error e :: tail) cb).records
        = (p :: rest).flatMap (fun pg => pg.records.map popAttributes) := by
  intro p rest cb e tail h
  exact pagLoop_allMore_err cb _ rest p 0 e tail h

/-- Witness for C3: a broken cursor after the first page, with a further
response available that is never consulted. -/
theorem cursor_pagination_continuation_failure_truncates_witness :
    allWantMore [pageA] = true
  ∧ (query_with_pagination pageA ([].map Except.ok ++ Except.error () :: [Except.ok pageB])
        (some demoCb)).records
      = [pageA].flatMap (fun pg => pg.records.map popAttributes) :=
  ⟨by decide,
   cursor_pagination_continuation_failure_truncates pageA [] (some demoCb) ()
     [Except.ok pageB] (by decide)⟩

/-! ### C10 -/

lemma pagLoop_allMore_noUrlPage (cb : Option Callback) (ts : Nat) :
    ∀ (rest : List SfPage) (p : SfPage) (n : Nat) (q : SfPage)
      (tail : List (Except Unit SfPage)),
      allWantMore (p :: rest) = true →
      q.done = some false → q.nextRecordsUrl = none →
      (pagLoop cb ts p n (rest.map Except.ok ++ Except.ok q :: tail)).records
        = (p :: rest).flatMap (fun pg => pg.records.map popAttributes)
            ++ q.records.map popAttributes := by
  intro rest
  induction rest with
  | nil =>
      intro p n q tail h hqd hqu
      rw [allWantMore, List.all_cons, List.all_nil, Bool.and_true, wantsMore,
        Bool.and_eq_true] at h
      obtain ⟨hdone, hurl⟩ := h
      have hd : p.done.getD true = false := by rw [eq_of_beq hdone]; rfl
      obtain ⟨u, hu⟩ := Option.isSome_iff_exists.mp hurl
      rw [List.map_nil, List.nil_append, pagLoop_next cb ts p n u q tail hd hu]
      have hqd' : q.done.getD true = false := by rw [hqd]; rfl
      simp only
      rw [pagLoop_noUrl cb ts q (n + 1) tail hqd' hqu]
      simp
  | cons q' rest ih =>
      intro p n q tail h hqd hqu
      rw [allWantMore, List.all_cons, Bool.and_eq_true] at h
      obtain ⟨hp, hrest⟩ := h
      rw [wantsMore, Bool.and_eq_true] at hp
      obtain ⟨hdone, hurl⟩ := hp
      have hd : p.done.getD true = false := by rw [eq_of_beq hdone]; rfl
      obtain ⟨u, hu⟩ := Option.isSome_iff_exists.mp hurl
      rw [List.map_cons, List.cons_append, pagLoop_next cb ts p n u q' _ hd hu]
      simp only
      rw [ih q' (n + 1) q tail hrest hqd hqu]
      simp

/-- C10: a page with `done = false` but no `nextRecordsUrl` key ends the loop
without raising: the run returns the records accumulated up to and including
that page, whatever responses would come later. -/
theorem missing_token_truncates :
    ∀ (p : SfPage) (rest : List SfPage) (q : SfPage) (cb : Option Callback)
      (tail : List (Except Unit SfPage)),
      allWantMore (p :: rest) = true →
      q.done = some false → q.nextRecordsUrl = none →
      (query_with_pagination p (rest.map Except.ok ++ Except.ok q :: tail) cb).records
        = (p :: rest).flatMap (fun pg => pg.records.map popAttributes)
            ++ q.records.map popAttributes := by
  intro p rest q cb tail h hqd hqu
  exact pagLoop_allMore_noUrlPage cb _ rest p 0 q tail h hqd hqu

/-- Witness for C10: the second page violates the Page invariant. -/
theorem missing_token_truncates_witness :
    allWantMore [pageA] = true
  ∧ (query_with_pagination pageA ([].map Except.ok ++ Except.ok pageNoUrl :: [])
        (some demoCb)).records
      = [pageA].flatMap (fun pg => pg.records.map popAttributes)
          ++ pageNoUrl.records.map popAttributes :=
  ⟨by decide,
   missing_token_truncates pageA [] pageNoUrl (some demoCb) [] (by decide)
     (by decide) (by decide)⟩

/-! ### Unfolding lemmas for the batch loop -/

lemma batchLoop_zero (server : String → SfPage) (soql : String) (bs tb : Nat)
    (cb : Option Callback) (k : Nat) :
    batchLoop server soql bs tb cb k 0 = ⟨[], [], []⟩ := rfl

lemma batchLoop_succ_short (server : String → SfPage) (soql : String) (bs tb : Nat)
    (cb : Option Callback) (k r : Nat)
    (h : (fetchedBatch server soql bs k).length < bs) :
    batchLoop server soql bs tb cb k (r + 1)
      = ⟨fetchedBatch server soql bs k, [k * bs],
         cbInvokeBatch cb (fetchedBatch server soql bs k) (k + 1) tb⟩ := by
  have h' : (List.map popAttributes (server (buildBatchQuery soql bs (k * bs))).records).length
      < bs := h
  simp only [batchLoop]
  rw [if_pos h']
  rfl

lemma batchLoop_succ_full (server : String → SfPage) (soql : String) (bs tb : Nat)
    (cb : Option Callback) (k r : Nat)
    (h : ¬ (fetchedBatch server soql bs k).length < bs) :
    batchLoop server soql bs tb cb k (r + 1)
      = ⟨fetchedBatch server soql bs k
            ++ (batchLoop server soql bs tb cb (k + 1) r).records,
         k * bs :: (batchLoop server soql bs tb cb (k + 1) r).offsets,
         cbInvokeBatch cb (fetchedBatch server soql bs k) (k + 1) tb
            ++ (batchLoop server soql bs tb cb (k + 1) r).cbCalls⟩ := by
  have h' : ¬ (List.map popAttributes (server (buildBatchQuery soql bs (k * bs))).records).length
      < bs := h
  simp only [batchLoop]
  rw [if_neg h']
  rfl

lemma batchLoop_offsets_getD (server : String → SfPage) (soql : String) (bs tb : Nat)
    (cb : Option Callback) :
    ∀ (r k0 i : Nat), i < (batchLoop server soql bs tb cb k0 r).offsets.length →
      (batchLoop server soql bs tb cb k0 r).offsets.getD i 0 = (k0 + i) * bs := by
  intro r
  induction r with
  | zero => intro k0 i h; simp [batchLoop_zero] at h
  | succ r ih =>
      intro k0 i h
      by_cases hs : (fetchedBatch server soql bs k0).length < bs
      · rw [batchLoop_succ_short server soql bs tb cb k0 r hs] at h ⊢
        simp only [List.length_cons, List.length_nil] at h
        have hi : i = 0 := by omega
        subst hi
        simp
      · rw [batchLoop_succ_full server soql bs tb cb k0 r hs] at h ⊢
        cases i with
        | zero => simp
        | succ i =>
            simp only [List.length_cons] at h
            have h' : i < (batchLoop server soql bs tb cb (k0 + 1) r).offsets.length := by
              omega
            rw [List.getD_cons_succ, ih (k0 + 1) i h']
            congr 1
            omega

lemma batchLoop_short_stops (server : String → SfPage) (soql : String) (bs tb : Nat)
    (cb : Option Callback) :
    ∀ (r k0 i : Nat), i < (batchLoop server soql bs tb cb k0 r).offsets.length →
      (fetchedBatch server soql bs (k0 + i)).length < bs →
      (batchLoop server soql bs tb cb k0 r).offsets.length = i + 1
        ∧ fetchedBatch server soql bs (k0 + i)
            <:+ (batchLoop server soql bs tb cb k0 r).records := by
  intro r
  induction r with
  | zero => intro k0 i h _; simp [batchLoop_zero] at h
  | succ r ih =>
      intro k0 i h hshort
      by_cases hs : (fetchedBatch server soql bs k0).length < bs
      · rw [batchLoop_succ_short server soql bs tb cb k0 r hs] at h ⊢
        simp only [List.length_cons, List.length_nil] at h
        have hi : i = 0 := by omega
        subst hi
        refine ⟨rfl, ?_⟩
        rw [Nat.add_zero]
      · rw [batchLoop_succ_full server soql bs tb cb k0 r hs] at h ⊢
        cases i with
        | zero => exact absurd (by simpa using hshort) hs
        | succ i =>
            simp only [List.length_cons] at h
            have h' : i < (batchLoop server soql bs tb cb (k0 + 1) r).offsets.length := by
              omega
            have hshort' : (fetchedBatch server soql bs (k0 + 1 + i)).length < bs := by
              have he : k0 + 1 + i = k0 + (i + 1) := by omega
              rw [he]; exact hshort
            obtain ⟨hlen, hsuf⟩ := ih (k0 + 1) i h' hshort'
            constructor
            · simp [List.length_cons, hlen]
            · have he : k0 + (i + 1) = k0 + 1 + i := by omega
              rw [he]
              obtain ⟨w, hw⟩ := hsuf
              exact ⟨fetchedBatch server soql bs k0 ++ w, by rw [List.append_assoc, hw]⟩

/-! ### C7 -/

/-- C7: if the batch fetched at 0-based index `k` comes back with fewer than
`batch_size` records, no batch with a larger index is requested — exactly
`k + 1` offsets are ever issued — and the short batch's records are still the
tail of the returned sequence. -/
theorem short_batch_stops_iteration :
    ∀ (server : String → SfPage) (soql : String) (bs : Nat) (cb : Option Callback)
      (res : BatchResult) (k : Nat),
      query_in_batches server soql bs cb = some res →
      k < res.offsets.length →
      (fetchedBatch server soql bs k).length < bs →
      res.offsets.length = k + 1 ∧ fetchedBatch server soql bs k <:+ res.records := by
  intro server soql bs cb res k h hk hshort
  simp only [query_in_batches] at h
  cases hq : query_count server soql with
  | none => rw [hq] at h; exact absurd h (by simp)
  | some total =>
      rw [hq] at h
      dsimp only at h
      by_cases h0 : total = 0
      · rw [if_pos h0] at h
        obtain rfl := Option.some_inj.mp h
        simp at hk
      · rw [if_neg h0] at h
        obtain rfl := Option.some_inj.mp h
        have hres := batchLoop_short_stops server soql bs (totalBatchesOf total bs) cb
          (totalBatchesOf total bs) 0 k hk (by simpa using hshort)
        simpa using hres

/-- Witness for C7: with batch size 2 and three records total, the second
batch is short; exactly two offsets are issued and the short batch ends the
output. -/
theorem short_batch_stops_iteration_witness :
    (1 < 2 ∧ (fetchedBatch smallServer "select id from Contact" 2 1).length < 2)
  ∧ ((BatchResult.mk [[("Id", "1")], [("Id", "2")], [("Id", "2")]] [0, 2] []).offsets.length
        = 1 + 1
      ∧ fetchedBatch smallServer "select id from Contact" 2 1
          <:+ (BatchResult.mk [[("Id", "1")], [("Id", "2")], [("Id", "2")]] [0, 2] []).records) :=
  ⟨⟨by decide, by decide⟩,
   short_batch_stops_iteration smallServer "select id from Contact" 2 none
     ⟨[[("Id", "1")], [("Id", "2")], [("Id", "2")]], [0, 2], []⟩ 1 rfl (by decide) (by decide)⟩

/-! ### C5 -/

lemma demo_batches_eval :
    (query_in_batches demoServer "select id from Account" 2000 (some demoCb)).map
        BatchResult.offsets = some [0, 2000, 4000]
  ∧ (query_in_batches demoServer "select id from Account" 2000 (some demoCb)).map
        (fun r => r.cbCalls.map Prod.fst) = some [(1, 3), (2, 3), (3, 3)] := by
  have hq : query_count demoServer "select id from Account" = some 5000 := by decide
  have hb0 : buildBatchQuery "select id from Account" 2000 (0 * 2000)
      = "select id from Account LIMIT 2000 OFFSET 0" := by decide
  have hb1 : buildBatchQuery "select id from Account" 2000 (1 * 2000)
      = "select id from Account LIMIT 2000 OFFSET 2000" := by decide
  have hb2 : buildBatchQuery "select id from Account" 2000 (2 * 2000)
      = "select id from Account LIMIT 2000 OFFSET 4000" := by decide
  have hs0 : demoServer "select id from Account LIMIT 2000 OFFSET 0"
      = ⟨List.replicate 2000 rawRecord2, some 5000, some true, none⟩ := by
    simp only [demoServer]
    rw [if_neg (by decide :
          ¬ (pyContains "select id from Account LIMIT 2000 OFFSET 0" "OFFSET 4000" = true)),
        if_neg (by decide :
          ¬ (pyContains "select id from Account LIMIT 2000 OFFSET 0" "COUNT()" = true))]
  have hs1 : demoServer "select id from Account LIMIT 2000 OFFSET 2000"
      = ⟨List.replicate 2000 rawRecord2, some 5000, some true, none⟩ := by
    simp only [demoServer]
    rw [if_neg (by decide :
          ¬ (pyContains "select id from Account LIMIT 2000 OFFSET 2000" "OFFSET 4000" = true)),
        if_neg (by decide :
          ¬ (pyContains "select id from Account LIMIT 2000 OFFSET 2000" "COUNT()" = true))]
  have hs2 : demoServer "select id from Account LIMIT 2000 OFFSET 4000"
      = ⟨List.replicate 1000 rawRecord2, some 5000, some true, none⟩ := by
    simp only [demoServer]
    rw [if_pos (by decide :
          pyContains "select id from Account LIMIT 2000 OFFSET 4000" "OFFSET 4000" = true)]
  have hf0 : fetchedBatch demoServer "select id from Account" 2000 0
      = List.replicate 2000 (popAttributes rawRecord2) := by
    simp only [fetchedBatch]
    rw [hb0, hs0]
    exact List.map_replicate
  have hf1 : fetchedBatch demoServer "select id from Account" 2000 1
      = List.replicate 2000 (popAttributes rawRecord2) := by
    simp only [fetchedBatch]
    rw [hb1, hs1]
    exact List.map_replicate
  have hf2 : fetchedBatch demoServer "select id from Account" 2000 2
      = List.replicate 1000 (popAttributes rawRecord2) := by
    simp only [fetchedBatch]
    rw [hb2, hs2]
    exact List.map_replicate
  have hlen0 : ¬ (fetchedBatch demoServer "select id from Account" 2000 0).length < 2000 := by
    rw [hf0, List.length_replicate]; omega
  have hlen1 : ¬ (fetchedBatch demoServer "select id from Account" 2000 1).length < 2000 := by
    rw [hf1, List.length_replicate]; omega
  have hlen2 : (fetchedBatch demoServer "select id from Account" 2000 2).length < 2000 := by
    rw [hf2, List.length_replicate]; omega
  have e2 := batchLoop_succ_short demoServer "select id from Account" 2000 3
    (some demoCb) 2 0 hlen2
  have e1 := batchLoop_succ_full demoServer "select id from Account" 2000 3
    (some demoCb) 1 1 hlen1
  have e0 := batchLoop_succ_full demoServer "select id from Account" 2000 3
    (some demoCb) 0 2 hlen0
  norm_num at e0 e1 e2
  rw [e2] at e1
  rw [e1] at e0
  have htb : totalBatchesOf 5000 2000 = 3 := by decide
  constructor
  · simp only [query_in_batches, hq]
    rw [if_neg (by decide : ¬ (5000 = 0)), htb, e0]
    simp
  · simp only [query_in_batches, hq]
    rw [if_neg (by decide : ¬ (5000 = 0)), htb, e0]
    simp [cbInvokeBatch, demoCb]

/-- C5: with a positive count and batch size, `query_in_batches` plans
`ceil(total_count / batch_size)` batches (the least number of batches covering
the count); the offset issued for the batch at 0-based index `i` is
`i * batch_size`; and at the spec's instance `total_count = 5000`,
`batch_size = 2000` the run issues offsets 0, 2000, 4000 and reports
`total_batches = 3` to the callback. -/
theorem offset_batching_plan :
    (∀ (total bs : Nat), 0 < total → 0 < bs →
        totalBatchesOf total bs = total ⌈/⌉ bs
          ∧ ∀ c : Nat, totalBatchesOf total bs ≤ c ↔ total ≤ bs * c)
  ∧ (∀ (server : String → SfPage) (soql : String) (bs : Nat) (cb : Option Callback)
        (res : BatchResult), query_in_batches server soql bs cb = some res →
        ∀ i : Nat, i < res.offsets.length → res.offsets.getD i 0 = i * bs)
  ∧ ((query_in_batches demoServer "select id from Account" 2000 (some demoCb)).map
        BatchResult.offsets = some [0, 2000, 4000]
      ∧ (query_in_batches demoServer "select id from Account" 2000 (some demoCb)).map
          (fun r => r.cbCalls.map Prod.fst) = some [(1, 3), (2, 3), (3, 3)]) := by
  refine ⟨?_, ?_, demo_batches_eval⟩
  · intro total bs _ h2
    constructor
    · exact (Nat.ceilDiv_eq_add_pred_div total bs).symm
    · intro c
      rw [totalBatchesOf, ← Nat.ceilDiv_eq_add_pred_div]
      exact ceilDiv_le_iff_le_mul h2
  · intro server soql bs cb res h i hi
    simp only [query_in_batches] at h
    cases hq : query_count server soql with
    | none => rw [hq] at h; exact absurd h (by simp)
    | some total =>
        rw [hq] at h
        dsimp only at h
        by_cases h0 : total = 0
        · rw [if_pos h0] at h
          obtain rfl := Option.some_inj.mp h
          simp at hi
        · rw [if_neg h0] at h
          obtain rfl := Option.some_inj.mp h
          have := batchLoop_offsets_getD server soql bs (totalBatchesOf total bs) cb
            (totalBatchesOf total bs) 0 i hi
          simpa using this

/-- Witness for C5 at the spec's instance and at a small concrete run. -/
theorem offset_batching_plan_witness :
    (0 < 5000 ∧ 0 < 2000 ∧ totalBatchesOf 5000 2000 = 5000 ⌈/⌉ 2000)
  ∧ (1 < (BatchResult.mk [[("Id", "1")], [("Id", "2")], [("Id", "2")]] [0, 2] []).offsets.length
      ∧ (BatchResult.mk [[("Id", "1")], [("Id", "2")], [("Id", "2")]] [0, 2] []).offsets.getD 1 0
          = 1 * 2) :=
  ⟨⟨by decide, by decide, (offset_batching_plan.1 5000 2000 (by decide) (by decide)).1⟩,
   ⟨by decide,
    offset_batching_plan.2.1 smallServer "select id from Contact" 2 none
      ⟨[[("Id", "1")], [("Id", "2")], [("Id", "2")]], [0, 2], []⟩ rfl 1 (by decide)⟩⟩

/-! ### C6 -/

lemma isPrefList_iff (n : List Char) :
    ∀ (l : List Char), isPrefList n l = true ↔ n <+: l := by
  induction n with
  | nil =>
      intro l
      simp only [isPrefList]
      exact ⟨fun _ => ⟨l, rfl⟩, fun _ => trivial⟩
  | cons a as ih =>
      intro l
      cases l with
      | nil => simp [isPrefList, List.prefix_nil]
      | cons b bs =>
          simp only [isPrefList, Bool.and_eq_true, beq_iff_eq, ih bs,
            List.cons_prefix_cons]

lemma findSub_some (needle : List Char) :
    ∀ (hay : List Char) (i : Nat), findSub needle hay = some i →
      needle <+: hay.drop i ∧ ∀ j, j < i → ¬ needle <+: hay.drop j := by
  intro hay
  induction hay with
  | nil =>
      intro i h
      simp only [findSub] at h
      by_cases he : needle.isEmpty
      · rw [if_pos he] at h
        obtain rfl := Option.some_inj.mp h
        rw [List.isEmpty_iff] at he
        subst he
        exact ⟨⟨[], rfl⟩, fun j hj => absurd hj (Nat.not_lt_zero j)⟩
      · rw [if_neg he] at h
        exact absurd h (by simp)
  | cons hh ht ih =>
      intro i h
      simp only [findSub] at h
      by_cases hp : isPrefList needle (hh :: ht) = true
      · rw [if_pos hp] at h
        obtain rfl := Option.some_inj.mp h
        exact ⟨(isPrefList_iff needle (hh :: ht)).mp hp,
          fun j hj => absurd hj (Nat.not_lt_zero j)⟩
      · rw [if_neg hp] at h
        obtain ⟨i', hi', rfl⟩ := Option.map_eq_some'.mp h
        obtain ⟨hpre, hmin⟩ := ih i' hi'
        refine ⟨hpre, ?_⟩
        intro j hj
        cases j with
        | zero =>
            intro hcon
            exact hp ((isPrefList_iff needle (hh :: ht)).mpr hcon)
        | succ j =>
            exact hmin j (by omega)

lemma findSub_none (needle : List Char) :
    ∀ (hay : List Char), findSub needle hay = none →
      ∀ j, ¬ needle <+: hay.drop j := by
  intro hay
  induction hay with
  | nil =>
      intro h j hcon
      simp only [findSub] at h
      by_cases he : needle.isEmpty
      · rw [if_pos he] at h; exact absurd h (by simp)
      · rw [List.drop_nil, List.prefix_nil] at hcon
        subst hcon
        exact he rfl
  | cons hh ht ih =>
      intro h j hcon
      simp only [findSub] at h
      by_cases hp : isPrefList needle (hh :: ht) = true
      · rw [if_pos hp] at h; exact absurd h (by simp)
      · rw [if_neg hp] at h
        have hnone : findSub needle ht = none := by
          cases hft : findSub needle ht with
          | none => rfl
          | some v => rw [hft] at h; exact absurd h (by simp)
        cases j with
        | zero => exact hp ((isPrefList_iff needle (hh :: ht)).mpr hcon)
        | succ j => exact ih hnone j hcon

/-- C6: the batch query rewrite inserts `LIMIT <batch_size> OFFSET <offset>`
immediately before the first case-insensitive occurrence of `ORDER BY` when
the query has one (splitting the query exactly at that occurrence), and
appends it at the end otherwise. -/
theorem batch_query_rewrite_shape :
    ∀ (soql : String) (bs off : Nat),
      (∃ i, "ORDER BY".toList <+: (pyUpper soql).toList.drop i
          ∧ (∀ j, j < i → ¬ "ORDER BY".toList <+: (pyUpper soql).toList.drop j)
          ∧ buildBatchQuery soql bs off
              = pyTake soql i ++ " LIMIT " ++ toString bs ++ " OFFSET " ++ toString off
                  ++ " " ++ pyDrop soql i)
      ∨ ((∀ j, ¬ "ORDER BY".toList <+: (pyUpper soql).toList.drop j)
          ∧ buildBatchQuery soql bs off
              = soql ++ " LIMIT " ++ toString bs ++ " OFFSET " ++ toString off) := by
  intro soql bs off
  cases hf : pyFind (pyUpper soql) "ORDER BY" with
  | some i =>
      left
      obtain ⟨hpre, hmin⟩ := findSub_some "ORDER BY".toList (pyUpper soql).toList i hf
      refine ⟨i, hpre, hmin, ?_⟩
      simp only [buildBatchQuery, hf]
  | none =>
      right
      exact ⟨findSub_none "ORDER BY".toList (pyUpper soql).toList hf,
        by simp only [buildBatchQuery, hf]⟩

/-! ### C8 -/

/-- C8 counterexample: on the spec's example query the count rewrite does not
produce the lowercase string `"select count() from Account "` the claim
names. -/
theorem count_rewrite_demo_not_lowercase :
    count_rewrite "select id from Account order by name limit 10"
      ≠ some "select count() from Account " := by decide

/-- C8 (amended): on the spec's example query the count rewrite truncates at
the ordering clause and produces exactly `"SELECT COUNT() from Account "` —
the prefix the code inserts is uppercase. -/
theorem count_rewrite_demo_value :
    count_rewrite "select id from Account order by name limit 10"
      = some "SELECT COUNT() from Account " := by decide

/-! ### C9 -/

/-- C9 counterexample: a query containing `from` but no `select` still fails
the rewrite with the malformed-query error. -/
theorem count_rewrite_rejects_from_without_select :
    pyContains (pyUpper "delete from Account") "FROM" = true
  ∧ count_rewrite "delete from Account" = none := by decide

/-- C9 (amended): the count rewrite fails with the malformed-query error
exactly when the query lacks a case-insensitive `select` or lacks a
case-insensitive `from`. -/
theorem count_rewrite_fails_iff_missing_select_or_from :
    ∀ soql : String, count_rewrite soql = none
      ↔ ¬(pyContains (pyUpper soql) "SELECT" = true
            ∧ pyContains (pyUpper soql) "FROM" = true) := by
  intro soql
  by_cases h : pyContains (pyUpper soql) "SELECT" = true
      ∧ pyContains (pyUpper soql) "FROM" = true
  · obtain ⟨h1, h2⟩ := h
    obtain ⟨i, hi⟩ := Option.isSome_iff_exists.mp h2
    simp [count_rewrite, h1, h2, hi]
  · rw [not_and_or] at h
    have hc : (pyContains (pyUpper soql) "SELECT"
        && pyContains (pyUpper soql) "FROM") = false := by
      rcases h with h | h
      · rw [Bool.not_eq_true] at h; simp [h]
      · rw [Bool.not_eq_true] at h; simp [h]
    rw [← not_and_or] at h
    simp only [count_rewrite, hc]
    exact ⟨fun _ => h, fun _ => rfl⟩

end GlueUtils
